import Mathlib

/-!
Shallow embedding of the scoring/classification core of the SQP analyzer
(`sqp_analyzer/models.py`, `sqp_analyzer/config.py`,
`sqp_analyzer/analyzers/diagnostic.py`, `sqp_analyzer/analyzers/placement.py`).

Python floats are modelled as `ℚ` (all threshold comparisons are exact here),
Python ints as `Int`, strings as `String`.  `list.sort` in Python is a stable
sort; it is modelled by `List.insertionSort`, which inserts earlier elements
in front of later, equally-keyed elements and is therefore stable for a total
preorder.  Mutable object identity (Python dataclass instances that receive
their `priority` by in-place mutation) is modelled by tagging each element
with its position in the input list.
-/

namespace SQP

/-- Enum `RankStatus` from `models.py`. -/
inductive RankStatus where
  | TOP_3
  | PAGE_1_HIGH
  | PAGE_1_LOW
  | INVISIBLE
  deriving DecidableEq

/-- Enum `DiagnosticType` from `models.py`. -/
inductive DiagnosticType where
  | GHOST
  | WINDOW_SHOPPER
  | PRICE_PROBLEM
  | HEALTHY
  deriving DecidableEq

/-- Enum `PlacementTarget` from `models.py`; declaration order TITLE, BULLETS,
BACKEND, DESCRIPTION is the iteration order of `for target in PlacementTarget`. -/
inductive PlacementTarget where
  | TITLE
  | BULLETS
  | BACKEND
  | DESCRIPTION
  deriving DecidableEq

/-- Enum `PriceSeverity` from `models.py`. -/
inductive PriceSeverity where
  | OK
  | WARNING
  | CRITICAL
  deriving DecidableEq

/-- Dataclass `SQPRecord` from `models.py`.  `week_date` (a calendar date) is
modelled as an ordinal day number; default field values mirror the dataclass. -/
structure SQPRecord where
  search_query : String
  asin : String
  week_date : Int
  search_volume : Int := 0
  search_score : ℚ := 0
  impressions_total : Int := 0
  impressions_asin : Int := 0
  impressions_share : ℚ := 0
  clicks_total : Int := 0
  clicks_asin : Int := 0
  clicks_share : ℚ := 0
  purchases_total : Int := 0
  purchases_asin : Int := 0
  purchases_share : ℚ := 0
  asin_price : Option ℚ := none
  market_price : Option ℚ := none
  deriving DecidableEq

/-- Dataclass `WeeklySnapshot` from `models.py`. -/
structure WeeklySnapshot where
  asin : String
  week_date : Int
  records : List SQPRecord := []
  deriving DecidableEq

/-- Dataclass `PriceFlag` from `models.py`. -/
structure PriceFlag where
  search_query : String
  asin : String
  asin_price : ℚ
  market_price : ℚ
  price_diff_percent : ℚ
  severity : PriceSeverity
  impressions_share : ℚ := 0
  purchases_share : ℚ := 0
  deriving DecidableEq

/-- Dataclass `KeywordDiagnostic` from `models.py`.  The fixed presentation
string `recommended_fix` (a lookup table over `DiagnosticType` in
`get_fix_recommendation`) is not modelled: no analyzed property depends on it. -/
structure KeywordDiagnostic where
  search_query : String
  asin : String
  diagnostic_type : DiagnosticType
  rank_status : RankStatus
  opportunity_score : ℚ
  search_volume : Int := 0
  impressions_share : ℚ := 0
  clicks_share : ℚ := 0
  purchases_share : ℚ := 0
  deriving DecidableEq

/-- Dataclass `KeywordPlacement` from `models.py`.  The presentation string
`reasoning` (an f-string rendering of the percentile) is not modelled: no
analyzed property depends on it. -/
structure KeywordPlacement where
  search_query : String
  asin : String
  placement : PlacementTarget
  priority : Int
  search_volume : Int := 0
  clicks_share : ℚ := 0
  deriving DecidableEq

/-- Dataclass `Thresholds` from `config.py` (all numeric cutoffs; the defaults
mirror the dataclass field defaults). -/
structure Thresholds where
  bread_butter_min_purchase_share : ℚ
  opportunity_max_imp_share : ℚ
  opportunity_min_purchase_share : ℚ
  leak_min_imp_share : ℚ
  leak_max_click_share : ℚ
  leak_max_purchase_share : ℚ
  price_warning_threshold : ℚ
  price_critical_threshold : ℚ
  rank_top_3_threshold : ℚ := 20
  rank_page_1_high_threshold : ℚ := 10
  rank_page_1_low_threshold : ℚ := 1
  ghost_min_volume : Int := 500
  ghost_max_imp_share : ℚ := 1
  window_shopper_min_imp_share : ℚ := 10
  window_shopper_max_click_share : ℚ := 1
  price_problem_min_imp_share : ℚ := 5
  title_min_volume_percentile : ℚ := 80
  title_min_click_share : ℚ := 5
  title_top_volume_percentile : ℚ := 95
  bullets_min_volume_percentile : ℚ := 50
  backend_min_volume_percentile : ℚ := 20
  deriving DecidableEq

/-- The threshold values produced by `load_config` when no environment
variable overrides are present (`config.py`, the `default=` arguments). -/
def defaultThresholds : Thresholds where
  bread_butter_min_purchase_share := 10
  opportunity_max_imp_share := 5
  opportunity_min_purchase_share := 5
  leak_min_imp_share := 5
  leak_max_click_share := 2
  leak_max_purchase_share := 2
  price_warning_threshold := 10
  price_critical_threshold := 20

/-! ## Diagnostic analyzer (`analyzers/diagnostic.py`)

The `DiagnosticAnalyzer` class holds only its injected `Thresholds`; each
method is modelled as a function taking the thresholds as first argument. -/

/-- Method `DiagnosticAnalyzer.get_rank_status`. -/
def get_rank_status (t : Thresholds) (impressions_share : ℚ) : RankStatus :=
  if impressions_share ≥ t.rank_top_3_threshold then RankStatus.TOP_3
  else if impressions_share ≥ t.rank_page_1_high_threshold then RankStatus.PAGE_1_HIGH
  else if impressions_share ≥ t.rank_page_1_low_threshold then RankStatus.PAGE_1_LOW
  else RankStatus.INVISIBLE

/-- Method `DiagnosticAnalyzer.calculate_opportunity_score`:
`volume * (1 - imp_share / 100)`. -/
def calculate_opportunity_score (record : SQPRecord) : ℚ :=
  (record.search_volume : ℚ) * (1 - record.impressions_share / 100)

/-- Method `DiagnosticAnalyzer.diagnose`: the priority-ordered decision list. -/
def diagnose (t : Thresholds) (record : SQPRecord) (has_price_flag : Bool) :
    DiagnosticType :=
  if record.search_volume ≥ t.ghost_min_volume ∧
      record.impressions_share < t.ghost_max_imp_share then
    DiagnosticType.GHOST
  else if record.impressions_share ≥ t.window_shopper_min_imp_share ∧
      record.clicks_share < t.window_shopper_max_click_share then
    DiagnosticType.WINDOW_SHOPPER
  else if has_price_flag ∧
      record.impressions_share ≥ t.price_problem_min_imp_share then
    DiagnosticType.PRICE_PROBLEM
  else
    DiagnosticType.HEALTHY

/-- Modelled from the spec (section 4.3): the same rules written as the spec
words them — rule 1 GHOST, else rule 2 WINDOW_SHOPPER, else rule 3
PRICE_PROBLEM, else HEALTHY — to compare with the source's `diagnose`. -/
def diagnoseSpec (t : Thresholds) (record : SQPRecord) (has_price_flag : Bool) :
    DiagnosticType :=
  if record.search_volume ≥ t.ghost_min_volume ∧
      record.impressions_share < t.ghost_max_imp_share then
    DiagnosticType.GHOST
  else if record.impressions_share ≥ t.window_shopper_min_imp_share ∧
      record.clicks_share < t.window_shopper_max_click_share then
    DiagnosticType.WINDOW_SHOPPER
  else if has_price_flag = true ∧
      record.impressions_share ≥ t.price_problem_min_imp_share then
    DiagnosticType.PRICE_PROBLEM
  else
    DiagnosticType.HEALTHY

/-- The price-flag lookup set built at the top of `DiagnosticAnalyzer.analyze`:
`set()` unless `price_flags` is truthy (neither `None` nor the empty list). -/
def priceFlaggedQueries (price_flags : Option (List PriceFlag)) : List String :=
  match price_flags with
  | none => []
  | some pfs => if pfs.isEmpty then [] else pfs.map (fun pf => pf.search_query)

/-- The membership test `record.search_query in price_flagged_queries`. -/
def hasPriceFlag (flagged : List String) (record : SQPRecord) : Bool :=
  decide (record.search_query ∈ flagged)

/-- The `KeywordDiagnostic` constructed for one record inside
`DiagnosticAnalyzer.analyze`. -/
def mkKeywordDiagnostic (t : Thresholds) (flagged : List String)
    (record : SQPRecord) : KeywordDiagnostic where
  search_query := record.search_query
  asin := record.asin
  diagnostic_type := diagnose t record (hasPriceFlag flagged record)
  rank_status := get_rank_status t record.impressions_share
  opportunity_score := calculate_opportunity_score record
  search_volume := record.search_volume
  impressions_share := record.impressions_share
  clicks_share := record.clicks_share
  purchases_share := record.purchases_share

/-- Sort relation of `diagnostics.sort(key=lambda d: d.opportunity_score,
reverse=True)`: descending by score; as a stable sort it keeps equal scores
in input order. -/
def scoreDescLE (a b : KeywordDiagnostic) : Prop :=
  b.opportunity_score ≤ a.opportunity_score

instance : DecidableRel scoreDescLE := fun a b =>
  inferInstanceAs (Decidable (b.opportunity_score ≤ a.opportunity_score))

instance : IsTotal KeywordDiagnostic scoreDescLE :=
  ⟨fun a b => le_total b.opportunity_score a.opportunity_score⟩

instance : IsTrans KeywordDiagnostic scoreDescLE :=
  ⟨fun _ _ _ hab hbc => le_trans hbc hab⟩

/-- Method `DiagnosticAnalyzer.analyze`. -/
def DiagnosticAnalyzer.analyze (t : Thresholds) (snapshot : WeeklySnapshot)
    (price_flags : Option (List PriceFlag)) : List KeywordDiagnostic :=
  let flagged := priceFlaggedQueries price_flags
  let diagnostics := snapshot.records.map (mkKeywordDiagnostic t flagged)
  List.insertionSort scoreDescLE diagnostics

/-- The counts dictionary returned by `DiagnosticAnalyzer.summarize`
(fixed keys total/ghost/window_shopper/price_problem/healthy). -/
structure DiagnosticCounts where
  total : Nat
  ghost : Nat
  window_shopper : Nat
  price_problem : Nat
  healthy : Nat
  deriving DecidableEq

/-- Loop body of `DiagnosticAnalyzer.summarize`: increment the bucket of one
diagnostic (the `else` branch counts HEALTHY). -/
def diagCountStep (c : DiagnosticCounts) (d : KeywordDiagnostic) :
    DiagnosticCounts :=
  match d.diagnostic_type with
  | DiagnosticType.GHOST => { c with ghost := c.ghost + 1 }
  | DiagnosticType.WINDOW_SHOPPER =>
      { c with window_shopper := c.window_shopper + 1 }
  | DiagnosticType.PRICE_PROBLEM =>
      { c with price_problem := c.price_problem + 1 }
  | DiagnosticType.HEALTHY => { c with healthy := c.healthy + 1 }

/-- Method `DiagnosticAnalyzer.summarize`: `total` is the input length, then
one pass increments the bucket of each diagnostic. -/
def DiagnosticAnalyzer.summarize (diagnostics : List KeywordDiagnostic) :
    DiagnosticCounts :=
  diagnostics.foldl diagCountStep
    { total := diagnostics.length, ghost := 0, window_shopper := 0,
      price_problem := 0, healthy := 0 }

/-! ## Placement recommender (`analyzers/placement.py`) -/

/-- Method `PlacementRecommender._calculate_percentile`: percentage of values
less than or equal to `value` (the one-element branch tests
`value >= all_values[0]`). -/
def calculate_percentile (value : Int) (all_values : List Int) : ℚ :=
  match all_values with
  | [] => 0
  | [v] => if value ≥ v then 100 else 0
  | _ :: _ :: _ =>
    ((all_values.countP (fun v => decide (v ≤ value)) : ℚ) /
      (all_values.length : ℚ)) * 100

/-- Method `PlacementRecommender.recommend_placement` (the reasoning string of
the Python pair result is presentation-only and not modelled). -/
def recommend_placement (t : Thresholds) (record : SQPRecord)
    (volume_percentile : ℚ) : PlacementTarget :=
  if volume_percentile ≥ t.title_top_volume_percentile then
    PlacementTarget.TITLE
  else if volume_percentile ≥ t.title_min_volume_percentile ∧
      record.clicks_share ≥ t.title_min_click_share then
    PlacementTarget.TITLE
  else if volume_percentile ≥ t.bullets_min_volume_percentile then
    PlacementTarget.BULLETS
  else if volume_percentile ≥ t.backend_min_volume_percentile then
    PlacementTarget.BACKEND
  else
    PlacementTarget.DESCRIPTION

/-- First loop of `PlacementRecommender.analyze`: one `KeywordPlacement` per
record, `priority` still 0, percentile taken against the whole volume list. -/
def placementFirstPass (t : Thresholds) (snapshot : WeeklySnapshot) :
    List KeywordPlacement :=
  let volumes := snapshot.records.map (fun r => r.search_volume)
  snapshot.records.map (fun r =>
    let volume_percentile := calculate_percentile r.search_volume volumes
    { search_query := r.search_query
      asin := r.asin
      placement := recommend_placement t r volume_percentile
      priority := 0
      search_volume := r.search_volume
      clicks_share := r.clicks_share })

/-- Position tags standing for Python object identity: pair every list element
with its index. -/
def indexFrom {α : Type} (n : Nat) : List α → List (Nat × α)
  | [] => []
  | a :: l => (n, a) :: indexFrom (n + 1) l

/-- Sort relation of `category_placements.sort(key=lambda p: p.search_volume,
reverse=True)` on index-tagged placements. -/
def volDescLE (a b : Nat × KeywordPlacement) : Prop :=
  b.2.search_volume ≤ a.2.search_volume

instance : DecidableRel volDescLE := fun a b =>
  inferInstanceAs (Decidable (b.2.search_volume ≤ a.2.search_volume))

instance : IsTotal (Nat × KeywordPlacement) volDescLE :=
  ⟨fun a b => le_total b.2.search_volume a.2.search_volume⟩

instance : IsTrans (Nat × KeywordPlacement) volDescLE :=
  ⟨fun _ _ _ hab hbc => le_trans hbc hab⟩

/-- The same volume-descending sort relation on plain placements. -/
def volDescLEP (a b : KeywordPlacement) : Prop :=
  b.search_volume ≤ a.search_volume

instance : DecidableRel volDescLEP := fun a b =>
  inferInstanceAs (Decidable (b.search_volume ≤ a.search_volume))

instance : IsTotal KeywordPlacement volDescLEP :=
  ⟨fun a b => le_total b.search_volume a.search_volume⟩

instance : IsTrans KeywordPlacement volDescLEP :=
  ⟨fun _ _ _ hab hbc => le_trans hbc hab⟩

/-- The `placement_order` dictionary in `PlacementRecommender.analyze`. -/
def placementOrder : PlacementTarget → Nat
  | PlacementTarget.TITLE => 0
  | PlacementTarget.BULLETS => 1
  | PlacementTarget.BACKEND => 2
  | PlacementTarget.DESCRIPTION => 3

/-- Sort relation of the final
`placements.sort(key=lambda p: (placement_order[p.placement], p.priority))`:
lexicographic comparison of the Python key tuple. -/
def finalLE (a b : Nat × KeywordPlacement) : Prop :=
  placementOrder a.2.placement < placementOrder b.2.placement ∨
    (placementOrder a.2.placement = placementOrder b.2.placement ∧
      a.2.priority ≤ b.2.priority)

instance : DecidableRel finalLE := fun a b =>
  inferInstanceAs (Decidable (_ ∨ _))

instance : IsTotal (Nat × KeywordPlacement) finalLE := by
  constructor
  intro a b
  rcases lt_trichotomy (placementOrder a.2.placement)
      (placementOrder b.2.placement) with h | h | h
  · exact Or.inl (Or.inl h)
  · rcases le_total a.2.priority b.2.priority with hp | hp
    · exact Or.inl (Or.inr ⟨h, hp⟩)
    · exact Or.inr (Or.inr ⟨h.symm, hp⟩)
  · exact Or.inr (Or.inl h)

instance : IsTrans (Nat × KeywordPlacement) finalLE := by
  constructor
  intro a b c hab hbc
  rcases hab with h₁ | ⟨h₁, hp₁⟩
  · rcases hbc with h₂ | ⟨h₂, _⟩
    · exact Or.inl (h₁.trans h₂)
    · exact Or.inl (h₂ ▸ h₁)
  · rcases hbc with h₂ | ⟨h₂, hp₂⟩
    · exact Or.inl (h₁ ▸ h₂)
    · exact Or.inr ⟨h₁.trans h₂, hp₁.trans hp₂⟩

/-- The per-target stable sort `category_placements.sort(...)` of the members
of one placement group (filter, then stable sort by volume descending). -/
def sortedCategory (indexed : List (Nat × KeywordPlacement))
    (target : PlacementTarget) : List (Nat × KeywordPlacement) :=
  List.insertionSort volDescLE
    (indexed.filter (fun q => decide (q.2.placement = target)))

/-- The priority-assignment pass of `PlacementRecommender.analyze`: each
placement object receives 1 + its position in the stable volume-descending
sort of its own group (Python assigns this by mutating the objects in place;
the index tag identifies the object). -/
def assignPriorities (indexed : List (Nat × KeywordPlacement)) :
    List (Nat × KeywordPlacement) :=
  indexed.map (fun q =>
    (q.1, { q.2 with priority :=
      ((sortedCategory indexed q.2.placement).findIdx
          (fun w => decide (w.1 = q.1)) : Int) + 1 }))

/-- Method `PlacementRecommender.analyze`. -/
def PlacementRecommender.analyze (t : Thresholds) (snapshot : WeeklySnapshot) :
    List KeywordPlacement :=
  if snapshot.records.isEmpty then []
  else
    let indexed := indexFrom 0 (placementFirstPass t snapshot)
    let prioritized := assignPriorities indexed
    (List.insertionSort finalLE prioritized).map Prod.snd

/-- The counts dictionary returned by `PlacementRecommender.summarize`
(fixed keys total/title/bullets/backend/description). -/
structure PlacementCounts where
  total : Nat
  title : Nat
  bullets : Nat
  backend : Nat
  description : Nat
  deriving DecidableEq

/-- Loop body of `PlacementRecommender.summarize`: increment the bucket of one
placement (the `else` branch counts DESCRIPTION). -/
def placeCountStep (c : PlacementCounts) (p : KeywordPlacement) :
    PlacementCounts :=
  match p.placement with
  | PlacementTarget.TITLE => { c with title := c.title + 1 }
  | PlacementTarget.BULLETS => { c with bullets := c.bullets + 1 }
  | PlacementTarget.BACKEND => { c with backend := c.backend + 1 }
  | PlacementTarget.DESCRIPTION =>
      { c with description := c.description + 1 }

/-- Method `PlacementRecommender.summarize`. -/
def PlacementRecommender.summarize (placements : List KeywordPlacement) :
    PlacementCounts :=
  placements.foldl placeCountStep
    { total := placements.length, title := 0, bullets := 0, backend := 0,
      description := 0 }

/-! ## Spec-side rendering of the placement batch operation

These definitions follow the words of spec section 4.5 ("within each
PlacementTarget group, sort members by search_volume descending and assign
priority = 1-based rank within that group (ties broken by stable input
order)"; "group by placement in fixed order TITLE, BULLETS, BACKEND,
DESCRIPTION, then by assigned priority ascending"), to be compared with
`PlacementRecommender.analyze`. -/

/-- Assign consecutive priorities `k, k+1, ...` positionally. -/
def assignPositional (k : Int) : List KeywordPlacement → List KeywordPlacement
  | [] => []
  | p :: l => { p with priority := k } :: assignPositional (k + 1) l

/-- Modelled from the spec: one placement group — the first-pass members of
the target, stably sorted by search_volume descending, with priority =
1-based rank. -/
def specGroup (t : Thresholds) (snapshot : WeeklySnapshot)
    (target : PlacementTarget) : List KeywordPlacement :=
  assignPositional 1
    (List.insertionSort volDescLEP
      ((placementFirstPass t snapshot).filter
        (fun p => decide (p.placement = target))))

/-- Modelled from the spec: the whole output, grouped by placement in the
fixed order TITLE, BULLETS, BACKEND, DESCRIPTION. -/
def placementAnalyzeSpec (t : Thresholds) (snapshot : WeeklySnapshot) :
    List KeywordPlacement :=
  if snapshot.records.isEmpty then []
  else
    specGroup t snapshot PlacementTarget.TITLE ++
      specGroup t snapshot PlacementTarget.BULLETS ++
      specGroup t snapshot PlacementTarget.BACKEND ++
      specGroup t snapshot PlacementTarget.DESCRIPTION

/-- Modelled from the spec (section 4.1): the rank-status threshold ladder as
the spec words it, to be compared with the source's `get_rank_status`. -/
def rankStatusSpec (t : Thresholds) (impressions_share : ℚ) : RankStatus :=
  if impressions_share ≥ t.rank_top_3_threshold then RankStatus.TOP_3
  else if impressions_share ≥ t.rank_page_1_high_threshold then RankStatus.PAGE_1_HIGH
  else if impressions_share ≥ t.rank_page_1_low_threshold then RankStatus.PAGE_1_LOW
  else RankStatus.INVISIBLE

/-- Indexed version of `assignPositional`, used to relate the in-place
priority mutation to the positional description. -/
def assignPosIdx (k : Int) :
    List (Nat × KeywordPlacement) → List (Nat × KeywordPlacement)
  | [] => []
  | q :: l => (q.1, { q.2 with priority := k }) :: assignPosIdx (k + 1) l

/-- Indexed counterpart of `specGroup`, phrased over the index-tagged first
pass. -/
def specGroupIdx (indexed : List (Nat × KeywordPlacement))
    (target : PlacementTarget) : List (Nat × KeywordPlacement) :=
  assignPosIdx 1 (sortedCategory indexed target)

/-- The priority update applied by `assignPriorities` to the members of one
fixed placement group. -/
def updatePriority (indexed : List (Nat × KeywordPlacement))
    (target : PlacementTarget) (q : Nat × KeywordPlacement) :
    Nat × KeywordPlacement :=
  (q.1, { q.2 with priority :=
    ((sortedCategory indexed target).findIdx
        (fun w => decide (w.1 = q.1)) : Int) + 1 })

/-- The fields of a `KeywordDiagnostic` that `DiagnosticAnalyzer.analyze`
copies verbatim from the source record. -/
def diagCopiedFields (d : KeywordDiagnostic) :
    String × String × Int × ℚ × ℚ × ℚ :=
  (d.search_query, d.asin, d.search_volume, d.impressions_share,
    d.clicks_share, d.purchases_share)

/-- The same fields read off an `SQPRecord`. -/
def recordDiagFields (r : SQPRecord) : String × String × Int × ℚ × ℚ × ℚ :=
  (r.search_query, r.asin, r.search_volume, r.impressions_share,
    r.clicks_share, r.purchases_share)

/-- The fields of a `KeywordPlacement` that `PlacementRecommender.analyze`
copies verbatim from the source record. -/
def placeCopiedFields (p : KeywordPlacement) : String × String × Int × ℚ :=
  (p.search_query, p.asin, p.search_volume, p.clicks_share)

/-- The same fields read off an `SQPRecord`. -/
def recordPlaceFields (r : SQPRecord) : String × String × Int × ℚ :=
  (r.search_query, r.asin, r.search_volume, r.clicks_share)

/-! ## Concrete inputs used to instantiate hypothesis-bearing theorems -/

/-- A concrete record. -/
def sampleRecord : SQPRecord :=
  { search_query := "kw", asin := "A0", week_date := 0, search_volume := 120,
    impressions_share := 2, clicks_share := 1 }

/-- A concrete one-record snapshot. -/
def sampleSnapshot : WeeklySnapshot :=
  { asin := "A0", week_date := 0, records := [sampleRecord] }

/-- A record meeting both the GHOST and the WINDOW_SHOPPER volume/share
conditions under the default thresholds. -/
def ghostSampleRecord : SQPRecord :=
  { search_query := "g", asin := "A0", week_date := 0, search_volume := 1000,
    impressions_share := 0, clicks_share := 0 }

/-- A concrete snapshot with zero records. -/
def emptySnapshot : WeeklySnapshot :=
  { asin := "A0", week_date := 0, records := [] }

/-! ## General lemmas about stable insertion sort -/

section StableSort

variable {α : Type} (r : α → α → Prop) [DecidableRel r]

theorem filter_orderedInsert_of_neg (p : α → Bool) (a : α) (l : List α)
    (ha : p a = false) :
    (List.orderedInsert r a l).filter p = l.filter p := by
  induction l with
  | nil => simp [List.orderedInsert, ha]
  | cons b l ih =>
    by_cases h : r a b
    · simp [List.orderedInsert, h, List.filter_cons, ha]
    · simp only [List.orderedInsert, if_neg h, List.filter_cons]
      cases hb : p b <;> simp [hb, ih]

theorem filter_orderedInsert_of_class (p : α → Bool) (a : α) (l : List α)
    (ha : p a = true) (hcls : ∀ b ∈ l, p b = true → r a b) :
    (List.orderedInsert r a l).filter p = a :: l.filter p := by
  induction l with
  | nil => simp [List.orderedInsert, ha]
  | cons b l ih =>
    by_cases h : r a b
    · simp [List.orderedInsert, h, List.filter_cons, ha]
    · have hb : p b = false := by
        cases hb : p b
        · rfl
        · exact absurd (hcls b (List.mem_cons_self b l) hb) h
      simp only [List.orderedInsert, if_neg h, List.filter_cons, hb,
        Bool.false_eq_true, if_false]
      exact ih (fun c hc hpc => hcls c (List.mem_cons_of_mem b hc) hpc)

/-- Stability of `insertionSort` on one tie class: if `p` selects only
mutually tied elements, the sort keeps them in input order. -/
theorem filter_insertionSort_of_class (p : α → Bool)
    (hcls : ∀ a b, p a = true → p b = true → r a b) :
    ∀ l : List α, (List.insertionSort r l).filter p = l.filter p := by
  intro l
  induction l with
  | nil => rfl
  | cons a l ih =>
    rw [List.insertionSort]
    cases ha : p a
    · rw [filter_orderedInsert_of_neg r p a _ ha, ih, List.filter_cons, ha]
      simp
    · rw [filter_orderedInsert_of_class r p a _ ha
        (fun b _ hb => hcls a b ha hb), ih, List.filter_cons, ha]
      simp

theorem append_cons_of_all_eq (a : α) :
    ∀ (u : List α), (∀ x ∈ u, x = a) → ∀ (v : List α),
      u ++ a :: v = a :: (u ++ v)
  | [], _, _ => rfl
  | b :: u, h, v => by
    have hb : b = a := h b (List.mem_cons_self b u)
    subst hb
    simp only [List.cons_append]
    rw [append_cons_of_all_eq b u (fun x hx => h x (List.mem_cons_of_mem b hx)) v]

/-- Two sorted permutations of each other are equal, assuming antisymmetry
only on the elements that actually occur. -/
theorem eq_of_perm_of_sorted_on {r : α → α → Prop} :
    ∀ {l₁ l₂ : List α}, l₁.Perm l₂ → l₁.Sorted r → l₂.Sorted r →
      (∀ a ∈ l₁, ∀ b ∈ l₁, r a b → r b a → a = b) → l₁ = l₂ := by
  intro l₁
  induction l₁ with
  | nil =>
    intro l₂ hp _ _ _
    exact hp.nil_eq
  | cons a t ih =>
    intro l₂ hp hs₁ hs₂ hanti
    have ha₂ : a ∈ l₂ := hp.subset (List.mem_cons_self a t)
    obtain ⟨u, v, rfl⟩ := List.append_of_mem ha₂
    have hu : ∀ x ∈ u, x = a := by
      intro x hx
      have hxa : r x a :=
        (List.pairwise_append.1 hs₂).2.2 x hx a (List.mem_cons_self a v)
      have hx₁ : x ∈ a :: t :=
        hp.symm.subset (List.mem_append.2 (Or.inl hx))
      rcases List.mem_cons.1 hx₁ with h | h
      · exact h
      · exact hanti x (List.mem_cons_of_mem a h) a (List.mem_cons_self a t)
          hxa (List.rel_of_sorted_cons hs₁ x h)
    have hrw : u ++ a :: v = a :: (u ++ v) := append_cons_of_all_eq a u hu v
    rw [hrw] at hp hs₂ ⊢
    have hp' : t.Perm (u ++ v) := (List.perm_cons a).1 hp
    have ht : t = u ++ v :=
      ih hp' hs₁.of_cons hs₂.of_cons
        (fun x hx y hy => hanti x (List.mem_cons_of_mem a hx) y
          (List.mem_cons_of_mem a hy))
    rw [ht]

end StableSort

/-! ## Lemmas about the index tagging -/

theorem indexFrom_map_snd {α : Type} :
    ∀ (n : Nat) (l : List α), (indexFrom n l).map Prod.snd = l
  | _, [] => rfl
  | n, a :: l => by
    simp only [indexFrom, List.map_cons]
    rw [indexFrom_map_snd (n + 1) l]

theorem indexFrom_length {α : Type} :
    ∀ (n : Nat) (l : List α), (indexFrom n l).length = l.length
  | _, [] => rfl
  | n, a :: l => by
    simp only [indexFrom, List.length_cons]
    rw [indexFrom_length (n + 1) l]

theorem mem_indexFrom_le {α : Type} :
    ∀ {n : Nat} {l : List α} {q : Nat × α}, q ∈ indexFrom n l → n ≤ q.1 := by
  intro n l
  induction l generalizing n with
  | nil => intro q hq; simp [indexFrom] at hq
  | cons a l ih =>
    intro q hq
    rcases List.mem_cons.1 hq with h | h
    · rw [h]
    · exact le_trans (Nat.le_succ n) (ih h)

theorem indexFrom_pairwise_lt {α : Type} :
    ∀ (n : Nat) (l : List α),
      (indexFrom n l).Pairwise (fun a b => a.1 < b.1) := by
  intro n l
  induction l generalizing n with
  | nil => exact List.Pairwise.nil
  | cons a l ih =>
    refine List.Pairwise.cons ?_ (ih (n + 1))
    intro q hq
    exact lt_of_lt_of_le (Nat.lt_succ_self n) (mem_indexFrom_le hq)

/-- In a list whose first components are pairwise increasing, an element is
determined by its first component. -/
theorem fst_inj_of_pairwise_lt {α : Type} {l : List (Nat × α)}
    (h : l.Pairwise (fun a b => a.1 < b.1)) :
    ∀ x ∈ l, ∀ y ∈ l, x.1 = y.1 → x = y := by
  have hnd : (l.map Prod.fst).Nodup :=
    (List.pairwise_map.2 h).imp (fun hab => Nat.ne_of_lt hab)
  exact fun x hx y hy hxy => List.inj_on_of_nodup_map hnd hx hy hxy

theorem perm_insert_first {α : Type} (a : α) {l A B C D : List α}
    (h : l.Perm (A ++ B ++ C ++ D)) : (a :: l).Perm ((a :: A) ++ B ++ C ++ D) :=
  h.cons a

theorem perm_insert_second {α : Type} (a : α) {l A B C D : List α}
    (h : l.Perm (A ++ B ++ C ++ D)) : (a :: l).Perm (A ++ (a :: B) ++ C ++ D) := by
  simp only [List.append_assoc, List.cons_append] at h ⊢
  exact (h.cons a).trans List.perm_middle.symm

theorem perm_insert_third {α : Type} (a : α) {l A B C D : List α}
    (h : l.Perm (A ++ B ++ C ++ D)) : (a :: l).Perm (A ++ B ++ (a :: C) ++ D) := by
  have h2 := @List.perm_middle _ a (A ++ B) (C ++ D)
  simp only [List.append_assoc, List.cons_append] at h h2 ⊢
  exact (h.cons a).trans h2.symm

theorem perm_insert_fourth {α : Type} (a : α) {l A B C D : List α}
    (h : l.Perm (A ++ B ++ C ++ D)) : (a :: l).Perm (A ++ B ++ C ++ (a :: D)) := by
  have h2 := @List.perm_middle _ a (A ++ B ++ C) D
  simp only [List.append_assoc, List.cons_append] at h h2 ⊢
  exact (h.cons a).trans h2.symm

/-- Every index-tagged placement list splits, up to permutation, into its four
placement groups. -/
theorem perm_placement_partition (l : List (Nat × KeywordPlacement)) :
    l.Perm
      (l.filter (fun q => decide (q.2.placement = PlacementTarget.TITLE)) ++
        l.filter (fun q => decide (q.2.placement = PlacementTarget.BULLETS)) ++
        l.filter (fun q => decide (q.2.placement = PlacementTarget.BACKEND)) ++
        l.filter
          (fun q => decide (q.2.placement = PlacementTarget.DESCRIPTION))) := by
  induction l with
  | nil => simp
  | cons q l ih =>
    cases hq : q.2.placement with
    | TITLE =>
      simp only [List.filter_cons, hq, decide_True, decide_False, if_true,
        if_false, reduceCtorEq]
      exact perm_insert_first q ih
    | BULLETS =>
      simp only [List.filter_cons, hq, decide_True, decide_False, if_true,
        if_false, reduceCtorEq]
      exact perm_insert_second q ih
    | BACKEND =>
      simp only [List.filter_cons, hq, decide_True, decide_False, if_true,
        if_false, reduceCtorEq]
      exact perm_insert_third q ih
    | DESCRIPTION =>
      simp only [List.filter_cons, hq, decide_True, decide_False, if_true,
        if_false, reduceCtorEq]
      exact perm_insert_fourth q ih

/-! ## Lemmas relating the in-place priority assignment to the positional one -/

theorem assignPosIdx_map_snd :
    ∀ (k : Int) (l : List (Nat × KeywordPlacement)),
      (assignPosIdx k l).map Prod.snd = assignPositional k (l.map Prod.snd)
  | _, [] => rfl
  | k, q :: l => by
    simp only [assignPosIdx, assignPositional, List.map_cons]
    rw [assignPosIdx_map_snd (k + 1) l]

theorem mem_assignPosIdx_priority_le (k : Int)
    (l : List (Nat × KeywordPlacement)) :
    ∀ q ∈ assignPosIdx k l, k ≤ q.2.priority := by
  induction l generalizing k with
  | nil => intro q hq; simp [assignPosIdx] at hq
  | cons p l ih =>
    intro q hq
    rcases List.mem_cons.1 hq with h | h
    · rw [h]
    · exact le_trans (by omega) (ih (k + 1) q h)

theorem assignPosIdx_pairwise_lt (k : Int) (l : List (Nat × KeywordPlacement)) :
    (assignPosIdx k l).Pairwise (fun a b => a.2.priority < b.2.priority) := by
  induction l generalizing k with
  | nil => exact List.Pairwise.nil
  | cons p l ih =>
    refine List.Pairwise.cons ?_ (ih (k + 1))
    intro q hq
    exact lt_of_lt_of_le (show k < k + 1 by omega)
      (mem_assignPosIdx_priority_le (k + 1) l q hq)

theorem mem_assignPosIdx_placement (target : PlacementTarget) :
    ∀ (k : Int) (l : List (Nat × KeywordPlacement)),
      (∀ w ∈ l, w.2.placement = target) →
      ∀ q ∈ assignPosIdx k l, q.2.placement = target := by
  intro k l
  induction l generalizing k with
  | nil => intro _ q hq; simp [assignPosIdx] at hq
  | cons p l ih =>
    intro hl q hq
    rcases List.mem_cons.1 hq with h | h
    · rw [h]; exact hl p (List.mem_cons_self p l)
    · exact ih (k + 1) (fun w hw => hl w (List.mem_cons_of_mem p hw)) q h

theorem mem_sortedCategory_placement (indexed : List (Nat × KeywordPlacement))
    (target : PlacementTarget) :
    ∀ q ∈ sortedCategory indexed target, q.2.placement = target := by
  intro q hq
  have hf : q ∈ indexed.filter (fun w => decide (w.2.placement = target)) :=
    (List.mem_insertionSort volDescLE).1 hq
  exact of_decide_eq_true (List.mem_filter.1 hf).2

theorem mem_specGroupIdx_placement (indexed : List (Nat × KeywordPlacement))
    (target : PlacementTarget) :
    ∀ q ∈ specGroupIdx indexed target, q.2.placement = target :=
  mem_assignPosIdx_placement target 1 (sortedCategory indexed target)
    (mem_sortedCategory_placement indexed target)

/-- Positional priority assignment described by index lookup: in a list with
distinct index tags, the priority `k + position` can be computed by
`findIdx` on the index tag. -/
theorem assignPosIdx_eq_map (k : Int) (l : List (Nat × KeywordPlacement))
    (hnd : (l.map Prod.fst).Nodup) :
    assignPosIdx k l = l.map (fun q => (q.1, { q.2 with priority :=
      k + (l.findIdx (fun w => decide (w.1 = q.1)) : Int) })) := by
  induction l generalizing k with
  | nil => rfl
  | cons p l ih =>
    have hp1 : p.1 ∉ l.map Prod.fst := (List.nodup_cons.1 hnd).1
    have hnd' : (l.map Prod.fst).Nodup := (List.nodup_cons.1 hnd).2
    rw [assignPosIdx, List.map_cons]
    have hhead : (p :: l).findIdx (fun w => decide (w.1 = p.1)) = 0 := by
      simp [List.findIdx_cons]
    congr 1
    · rw [hhead]
      simp
    · rw [ih (k + 1) hnd']
      apply List.map_congr_left
      intro q hq
      have hq1 : decide (p.1 = q.1) = false := by
        apply decide_eq_false
        intro he
        exact hp1 (he ▸ List.mem_map_of_mem Prod.fst hq)
      have htail : (p :: l).findIdx (fun w => decide (w.1 = q.1)) =
          l.findIdx (fun w => decide (w.1 = q.1)) + 1 := by
        simp [List.findIdx_cons, hq1]
      rw [htail]
      have harith : (k + 1) + (l.findIdx (fun w => decide (w.1 = q.1)) : Int) =
          k + ((l.findIdx (fun w => decide (w.1 = q.1)) + 1 : Nat) : Int) := by
        push_cast
        omega
      rw [← harith]

theorem assignPriorities_filter (indexed : List (Nat × KeywordPlacement))
    (target : PlacementTarget) :
    (assignPriorities indexed).filter
        (fun q => decide (q.2.placement = target)) =
      (indexed.filter (fun q => decide (q.2.placement = target))).map
        (updatePriority indexed target) := by
  rw [assignPriorities, List.filter_map]
  have hpred : indexed.filter
      ((fun q : Nat × KeywordPlacement => decide (q.2.placement = target)) ∘
        fun q : Nat × KeywordPlacement =>
        (q.1, { q.2 with priority :=
          ((sortedCategory indexed q.2.placement).findIdx
              (fun w => decide (w.1 = q.1)) : Int) + 1 })) =
      indexed.filter (fun q => decide (q.2.placement = target)) :=
    List.filter_congr (fun q _ => rfl)
  rw [hpred]
  apply List.map_congr_left
  intro q hq
  have hpl : q.2.placement = target :=
    of_decide_eq_true (List.mem_filter.1 hq).2
  simp only [updatePriority, hpl]

theorem sortedCategory_fst_nodup (indexed : List (Nat × KeywordPlacement))
    (target : PlacementTarget)
    (hnd : ((indexed.filter (fun q => decide (q.2.placement = target))).map
      Prod.fst).Nodup) :
    ((sortedCategory indexed target).map Prod.fst).Nodup := by
  have hperm : (sortedCategory indexed target).Perm
      (indexed.filter (fun q => decide (q.2.placement = target))) :=
    List.perm_insertionSort volDescLE _
  exact (hperm.map Prod.fst).nodup_iff.2 hnd

theorem specGroupIdx_eq_map (indexed : List (Nat × KeywordPlacement))
    (target : PlacementTarget)
    (hnd : ((indexed.filter (fun q => decide (q.2.placement = target))).map
      Prod.fst).Nodup) :
    specGroupIdx indexed target =
      (sortedCategory indexed target).map (updatePriority indexed target) := by
  rw [specGroupIdx,
    assignPosIdx_eq_map 1 _ (sortedCategory_fst_nodup indexed target hnd)]
  apply List.map_congr_left
  intro q _
  rw [updatePriority, Int.add_comm]

theorem specGroupIdx_perm_filter (indexed : List (Nat × KeywordPlacement))
    (target : PlacementTarget)
    (hnd : ((indexed.filter (fun q => decide (q.2.placement = target))).map
      Prod.fst).Nodup) :
    (specGroupIdx indexed target).Perm
      ((assignPriorities indexed).filter
        (fun q => decide (q.2.placement = target))) := by
  rw [specGroupIdx_eq_map indexed target hnd, assignPriorities_filter]
  exact (List.perm_insertionSort volDescLE _).map _

theorem sorted_specGroupIdx (indexed : List (Nat × KeywordPlacement))
    (target : PlacementTarget) :
    (specGroupIdx indexed target).Sorted finalLE := by
  have hpl := mem_specGroupIdx_placement indexed target
  refine List.Pairwise.imp_of_mem ?_
    (assignPosIdx_pairwise_lt 1 (sortedCategory indexed target))
  intro a b ha hb hlt
  exact Or.inr ⟨by rw [hpl a ha, hpl b hb], le_of_lt hlt⟩

theorem placementOrder_inj (x y : PlacementTarget) :
    placementOrder x = placementOrder y → x = y := by
  cases x <;> cases y <;> simp [placementOrder]

theorem sorted_specGroups_append (indexed : List (Nat × KeywordPlacement)) :
    (specGroupIdx indexed PlacementTarget.TITLE ++
      specGroupIdx indexed PlacementTarget.BULLETS ++
      specGroupIdx indexed PlacementTarget.BACKEND ++
      specGroupIdx indexed PlacementTarget.DESCRIPTION).Sorted finalLE := by
  have hcross : ∀ (u v : PlacementTarget),
      placementOrder u < placementOrder v →
      ∀ a ∈ specGroupIdx indexed u, ∀ b ∈ specGroupIdx indexed v,
        finalLE a b := by
    intro u v hlt a ha b hb
    left
    rw [mem_specGroupIdx_placement indexed u a ha,
      mem_specGroupIdx_placement indexed v b hb]
    exact hlt
  refine List.pairwise_append.2 ⟨?_, ?_, ?_⟩
  · refine List.pairwise_append.2 ⟨?_, ?_, ?_⟩
    · refine List.pairwise_append.2 ⟨?_, ?_, ?_⟩
      · exact sorted_specGroupIdx indexed _
      · exact sorted_specGroupIdx indexed _
      · exact hcross _ _ (by decide)
    · exact sorted_specGroupIdx indexed _
    · intro a ha b hb
      rcases List.mem_append.1 ha with h | h
      · exact hcross _ _ (by decide) a h b hb
      · exact hcross _ _ (by decide) a h b hb
  · exact sorted_specGroupIdx indexed _
  · intro a ha b hb
    rcases List.mem_append.1 ha with h | h
    · rcases List.mem_append.1 h with h2 | h2
      · exact hcross _ _ (by decide) a h2 b hb
      · exact hcross _ _ (by decide) a h2 b hb
    · exact hcross _ _ (by decide) a h b hb

theorem filter_indexFrom_fst_nodup (F : List KeywordPlacement)
    (p : Nat × KeywordPlacement → Bool) :
    (((indexFrom 0 F).filter p).map Prod.fst).Nodup := by
  have h : ((indexFrom 0 F).filter p).Pairwise (fun a b => a.1 < b.1) :=
    List.Pairwise.sublist (List.filter_sublist _) (indexFrom_pairwise_lt 0 F)
  exact (List.pairwise_map.2 h).imp (fun hab => Nat.ne_of_lt hab)

theorem assignPriorities_antisymm (F : List KeywordPlacement) :
    ∀ a ∈ assignPriorities (indexFrom 0 F),
      ∀ b ∈ assignPriorities (indexFrom 0 F),
        finalLE a b → finalLE b a → a = b := by
  intro a ha b hb hab hba
  have hpo : placementOrder a.2.placement = placementOrder b.2.placement := by
    rcases hab with h | ⟨h, _⟩
    · rcases hba with h2 | ⟨h2, _⟩ <;> omega
    · exact h
  have hpl : a.2.placement = b.2.placement := placementOrder_inj _ _ hpo
  have hpr : a.2.priority = b.2.priority := by
    rcases hab with h | ⟨_, h⟩
    · omega
    · rcases hba with h2 | ⟨_, h2⟩
      · omega
      · omega
  have hnd := filter_indexFrom_fst_nodup F
    (fun q => decide (q.2.placement = b.2.placement))
  have ha2 : a ∈ (assignPriorities (indexFrom 0 F)).filter
      (fun q => decide (q.2.placement = b.2.placement)) :=
    List.mem_filter.2 ⟨ha, decide_eq_true hpl⟩
  have hb2 : b ∈ (assignPriorities (indexFrom 0 F)).filter
      (fun q => decide (q.2.placement = b.2.placement)) :=
    List.mem_filter.2 ⟨hb, decide_eq_true rfl⟩
  have hperm := specGroupIdx_perm_filter (indexFrom 0 F) b.2.placement hnd
  have h1 : ((specGroupIdx (indexFrom 0 F) b.2.placement).map
      (fun q => q.2.priority)).Nodup := by
    rw [specGroupIdx]
    exact List.pairwise_map.2
      ((assignPosIdx_pairwise_lt 1 _).imp (fun hlt => ne_of_lt hlt))
  have hnodup : (((assignPriorities (indexFrom 0 F)).filter
      (fun q => decide (q.2.placement = b.2.placement))).map
        (fun q => q.2.priority)).Nodup :=
    ((hperm.map (fun q => q.2.priority)).nodup_iff).1 h1
  exact List.inj_on_of_nodup_map hnodup ha2 hb2 hpr

theorem specGroupIdx_map_snd (t : Thresholds) (s : WeeklySnapshot)
    (target : PlacementTarget) :
    (specGroupIdx (indexFrom 0 (placementFirstPass t s)) target).map Prod.snd =
      specGroup t s target := by
  rw [specGroupIdx, assignPosIdx_map_snd, specGroup]
  congr 1
  rw [sortedCategory,
    List.map_insertionSort volDescLE volDescLEP Prod.snd _ (fun a _ b _ => Iff.rfl)]
  congr 1
  have h1 : (indexFrom 0 (placementFirstPass t s)).filter
      (fun q => decide (q.2.placement = target)) =
      (indexFrom 0 (placementFirstPass t s)).filter
        ((fun p : KeywordPlacement => decide (p.placement = target)) ∘ Prod.snd) :=
    List.filter_congr (fun q _ => rfl)
  rw [h1, ← List.filter_map, indexFrom_map_snd]

/-! ## Claim theorems -/

/-- C2: on every non-empty snapshot, `PlacementRecommender.analyze` assigns
each emitted `KeywordPlacement` a priority equal to its 1-based rank by
`search_volume` descending within its `PlacementTarget` group (ties broken by
stable input order), and returns the whole output grouped by placement in the
fixed order TITLE, BULLETS, BACKEND, DESCRIPTION with priority ascending
within each group — that is, it coincides with the spec-side description
`placementAnalyzeSpec`. -/
theorem C2_placement_priority_and_grouping (t : Thresholds)
    (s : WeeklySnapshot) (h : s.records ≠ []) :
    PlacementRecommender.analyze t s = placementAnalyzeSpec t s := by
  have hne : ¬ s.records.isEmpty = true := by
    rw [List.isEmpty_iff]
    exact h
  rw [PlacementRecommender.analyze, placementAnalyzeSpec, if_neg hne,
    if_neg hne]
  show (List.insertionSort finalLE
    (assignPriorities (indexFrom 0 (placementFirstPass t s)))).map Prod.snd = _
  have hmain : List.insertionSort finalLE
      (assignPriorities (indexFrom 0 (placementFirstPass t s))) =
      specGroupIdx (indexFrom 0 (placementFirstPass t s))
          PlacementTarget.TITLE ++
        specGroupIdx (indexFrom 0 (placementFirstPass t s))
          PlacementTarget.BULLETS ++
        specGroupIdx (indexFrom 0 (placementFirstPass t s))
          PlacementTarget.BACKEND ++
        specGroupIdx (indexFrom 0 (placementFirstPass t s))
          PlacementTarget.DESCRIPTION := by
    refine eq_of_perm_of_sorted_on (r := finalLE) ?_ ?_ ?_ ?_
    · refine (List.perm_insertionSort finalLE _).trans ?_
      refine (perm_placement_partition _).trans ?_
      refine List.Perm.append (List.Perm.append (List.Perm.append ?_ ?_) ?_)
          ?_ <;>
        exact (specGroupIdx_perm_filter _ _
          (filter_indexFrom_fst_nodup _ _)).symm
    · exact List.sorted_insertionSort finalLE _
    · exact sorted_specGroups_append _
    · intro a ha b hb
      exact assignPriorities_antisymm (placementFirstPass t s) a
        ((List.mem_insertionSort finalLE).1 ha) b
        ((List.mem_insertionSort finalLE).1 hb)
  rw [hmain]
  simp only [List.map_append]
  rw [specGroupIdx_map_snd t s PlacementTarget.TITLE,
    specGroupIdx_map_snd t s PlacementTarget.BULLETS,
    specGroupIdx_map_snd t s PlacementTarget.BACKEND,
    specGroupIdx_map_snd t s PlacementTarget.DESCRIPTION]

/-- Witness for C2 at a concrete one-record snapshot. -/
theorem C2_placement_priority_and_grouping_witness :
    sampleSnapshot.records ≠ [] ∧
      PlacementRecommender.analyze defaultThresholds sampleSnapshot =
        placementAnalyzeSpec defaultThresholds sampleSnapshot :=
  ⟨by decide,
    C2_placement_priority_and_grouping defaultThresholds sampleSnapshot
      (by decide)⟩

/-- C1: `diagnose` is the ordered decision list GHOST, WINDOW_SHOPPER,
PRICE_PROBLEM, HEALTHY with the stated conditions and default cutoffs, a
record meeting the GHOST condition is classified GHOST regardless of the
other rules, and without a price flag PRICE_PROBLEM is unreachable. -/
theorem C1_diagnose_decision_list (t : Thresholds) (r : SQPRecord) (f : Bool) :
    diagnose t r f = diagnoseSpec t r f ∧
    (r.search_volume ≥ t.ghost_min_volume ∧
        r.impressions_share < t.ghost_max_imp_share →
      diagnose t r f = DiagnosticType.GHOST) ∧
    (f = false → diagnose t r f ≠ DiagnosticType.PRICE_PROBLEM) ∧
    defaultThresholds.ghost_min_volume = 500 ∧
    defaultThresholds.ghost_max_imp_share = 1 ∧
    defaultThresholds.window_shopper_min_imp_share = 10 ∧
    defaultThresholds.window_shopper_max_click_share = 1 ∧
    defaultThresholds.price_problem_min_imp_share = 5 := by
  refine ⟨rfl, ?_, ?_, rfl, rfl, rfl, rfl, rfl⟩
  · intro hg
    rw [diagnose, if_pos hg]
  · intro hf
    subst hf
    rw [diagnose]
    split_ifs with h1 h2 h3
    · exact fun hc => DiagnosticType.noConfusion hc
    · exact fun hc => DiagnosticType.noConfusion hc
    · simp at h3
    · exact fun hc => DiagnosticType.noConfusion hc

/-- Witness for C1: the GHOST/WINDOW_SHOPPER overlap record is classified
GHOST and, without a flag, is not PRICE_PROBLEM. -/
theorem C1_diagnose_decision_list_witness :
    (ghostSampleRecord.search_volume ≥ defaultThresholds.ghost_min_volume ∧
      ghostSampleRecord.impressions_share <
        defaultThresholds.ghost_max_imp_share) ∧
    diagnose defaultThresholds ghostSampleRecord false = DiagnosticType.GHOST ∧
    diagnose defaultThresholds ghostSampleRecord false ≠
      DiagnosticType.PRICE_PROBLEM :=
  ⟨by decide,
    (C1_diagnose_decision_list defaultThresholds ghostSampleRecord false).2.1
      (by decide),
    (C1_diagnose_decision_list defaultThresholds ghostSampleRecord false).2.2.1
      rfl⟩

/-- C5: `get_rank_status` is the total, top-down threshold ladder with
inclusive boundaries and the stated default cutoffs; at the defaults, 20.0
gives TOP_3, 19.999 gives PAGE_1_HIGH, and 0.0 gives INVISIBLE. -/
theorem C5_rank_status_ladder (t : Thresholds) (x : ℚ) :
    get_rank_status t x = rankStatusSpec t x ∧
    defaultThresholds.rank_top_3_threshold = 20 ∧
    defaultThresholds.rank_page_1_high_threshold = 10 ∧
    defaultThresholds.rank_page_1_low_threshold = 1 ∧
    get_rank_status defaultThresholds 20 = RankStatus.TOP_3 ∧
    get_rank_status defaultThresholds (19999/1000) = RankStatus.PAGE_1_HIGH ∧
    get_rank_status defaultThresholds 0 = RankStatus.INVISIBLE :=
  ⟨rfl, rfl, rfl, rfl, by norm_num [get_rank_status, defaultThresholds],
    by norm_num [get_rank_status, defaultThresholds],
    by norm_num [get_rank_status, defaultThresholds]⟩

/-- C6: a missing and an empty price-flag collection are treated identically
(no query flagged), and a supplied collection flags exactly the queries that
occur among its `search_query` values. -/
theorem C6_price_flags_none_empty (t : Thresholds) (s : WeeklySnapshot) :
    DiagnosticAnalyzer.analyze t s none =
      DiagnosticAnalyzer.analyze t s (some []) ∧
    (∀ r : SQPRecord, hasPriceFlag (priceFlaggedQueries none) r = false) ∧
    (∀ r : SQPRecord, hasPriceFlag (priceFlaggedQueries (some [])) r = false) ∧
    (∀ (l : List PriceFlag) (r : SQPRecord),
      hasPriceFlag (priceFlaggedQueries (some l)) r =
        decide (r.search_query ∈ l.map (fun pf => pf.search_query))) := by
  refine ⟨rfl, fun r => by simp [hasPriceFlag, priceFlaggedQueries],
    fun r => by simp [hasPriceFlag, priceFlaggedQueries], ?_⟩
  intro l r
  cases l with
  | nil => simp [hasPriceFlag, priceFlaggedQueries]
  | cons pf l => rfl

/-- C7: a snapshot with zero records yields empty outputs from both analyzers
and all-zero summaries. -/
theorem C7_empty_snapshot (t : Thresholds) (s : WeeklySnapshot)
    (pf : Option (List PriceFlag)) (h : s.records = []) :
    PlacementRecommender.analyze t s = [] ∧
    DiagnosticAnalyzer.analyze t s pf = [] ∧
    DiagnosticAnalyzer.summarize [] =
      { total := 0, ghost := 0, window_shopper := 0, price_problem := 0,
        healthy := 0 } ∧
    PlacementRecommender.summarize [] =
      { total := 0, title := 0, bullets := 0, backend := 0,
        description := 0 } := by
  refine ⟨?_, ?_, rfl, rfl⟩
  · rw [PlacementRecommender.analyze, if_pos (by rw [h]; rfl)]
  · show List.insertionSort scoreDescLE
      (s.records.map (mkKeywordDiagnostic t (priceFlaggedQueries pf))) = []
    rw [h]
    rfl

/-- Witness for C7 at the concrete empty snapshot. -/
theorem C7_empty_snapshot_witness :
    emptySnapshot.records = [] ∧
      (PlacementRecommender.analyze defaultThresholds emptySnapshot = [] ∧
        DiagnosticAnalyzer.analyze defaultThresholds emptySnapshot none = [] ∧
        DiagnosticAnalyzer.summarize [] =
          { total := 0, ghost := 0, window_shopper := 0, price_problem := 0,
            healthy := 0 } ∧
        PlacementRecommender.summarize [] =
          { total := 0, title := 0, bullets := 0, backend := 0,
            description := 0 }) :=
  ⟨rfl, C7_empty_snapshot defaultThresholds emptySnapshot none rfl⟩

theorem diag_foldl_buckets (l : List KeywordDiagnostic) :
    ∀ c : DiagnosticCounts,
      ((l.foldl diagCountStep c).ghost +
          (l.foldl diagCountStep c).window_shopper +
          (l.foldl diagCountStep c).price_problem +
          (l.foldl diagCountStep c).healthy =
        c.ghost + c.window_shopper + c.price_problem + c.healthy + l.length) ∧
      (l.foldl diagCountStep c).total = c.total := by
  induction l with
  | nil => intro c; simp
  | cons d l ih =>
    intro c
    rw [List.foldl_cons]
    rcases ih (diagCountStep c d) with ⟨h1, h2⟩
    refine ⟨?_, ?_⟩
    · rw [h1, List.length_cons]
      cases hd : d.diagnostic_type <;> simp [diagCountStep, hd] <;> omega
    · rw [h2]
      cases hd : d.diagnostic_type <;> simp [diagCountStep, hd]

theorem place_foldl_buckets (l : List KeywordPlacement) :
    ∀ c : PlacementCounts,
      ((l.foldl placeCountStep c).title +
          (l.foldl placeCountStep c).bullets +
          (l.foldl placeCountStep c).backend +
          (l.foldl placeCountStep c).description =
        c.title + c.bullets + c.backend + c.description + l.length) ∧
      (l.foldl placeCountStep c).total = c.total := by
  induction l with
  | nil => intro c; simp
  | cons p l ih =>
    intro c
    rw [List.foldl_cons]
    rcases ih (placeCountStep c p) with ⟨h1, h2⟩
    refine ⟨?_, ?_⟩
    · rw [h1, List.length_cons]
      cases hp : p.placement <;> simp [placeCountStep, hp] <;> omega
    · rw [h2]
      cases hp : p.placement <;> simp [placeCountStep, hp]

/-- C8: both `summarize` operations put every element in exactly one bucket —
the per-category counts sum to `total`, which is the input length. -/
theorem C8_summarize_counts (l : List KeywordDiagnostic)
    (pl : List KeywordPlacement) :
    ((DiagnosticAnalyzer.summarize l).ghost +
        (DiagnosticAnalyzer.summarize l).window_shopper +
        (DiagnosticAnalyzer.summarize l).price_problem +
        (DiagnosticAnalyzer.summarize l).healthy =
      (DiagnosticAnalyzer.summarize l).total) ∧
    (DiagnosticAnalyzer.summarize l).total = l.length ∧
    ((PlacementRecommender.summarize pl).title +
        (PlacementRecommender.summarize pl).bullets +
        (PlacementRecommender.summarize pl).backend +
        (PlacementRecommender.summarize pl).description =
      (PlacementRecommender.summarize pl).total) ∧
    (PlacementRecommender.summarize pl).total = pl.length := by
  have hd := diag_foldl_buckets l
    { total := l.length, ghost := 0, window_shopper := 0, price_problem := 0,
      healthy := 0 }
  have hp := place_foldl_buckets pl
    { total := pl.length, title := 0, bullets := 0, backend := 0,
      description := 0 }
  rw [DiagnosticAnalyzer.summarize, PlacementRecommender.summarize]
  refine ⟨?_, hd.2, ?_, hp.2⟩
  · rw [hd.1, hd.2]
    simp
  · rw [hp.1, hp.2]
    simp

/-- C9: both analyzers are deterministic — equal inputs give equal outputs,
including order. -/
theorem C9_analyze_deterministic (t : Thresholds) (s₁ s₂ : WeeklySnapshot)
    (pf₁ pf₂ : Option (List PriceFlag)) (hs : s₁ = s₂) (hpf : pf₁ = pf₂) :
    DiagnosticAnalyzer.analyze t s₁ pf₁ = DiagnosticAnalyzer.analyze t s₂ pf₂ ∧
    PlacementRecommender.analyze t s₁ = PlacementRecommender.analyze t s₂ := by
  subst hs
  subst hpf
  exact ⟨rfl, rfl⟩

/-- Witness for C9 at a concrete snapshot. -/
theorem C9_analyze_deterministic_witness :
    sampleSnapshot = sampleSnapshot ∧
    (none : Option (List PriceFlag)) = none ∧
    (DiagnosticAnalyzer.analyze defaultThresholds sampleSnapshot none =
        DiagnosticAnalyzer.analyze defaultThresholds sampleSnapshot none ∧
      PlacementRecommender.analyze defaultThresholds sampleSnapshot =
        PlacementRecommender.analyze defaultThresholds sampleSnapshot) :=
  ⟨rfl, rfl,
    C9_analyze_deterministic defaultThresholds sampleSnapshot sampleSnapshot
      none none rfl rfl⟩

/-- C3: every diagnostic carries the opportunity score
`search_volume * (1 - impressions_share / 100)` of its record, and the output
of `DiagnosticAnalyzer.analyze` is sorted by opportunity score descending
with ties kept in snapshot order (stable sort). -/
theorem C3_opportunity_score_sort (t : Thresholds) (s : WeeklySnapshot)
    (pf : Option (List PriceFlag)) :
    (∀ d ∈ DiagnosticAnalyzer.analyze t s pf,
      d.opportunity_score =
        (d.search_volume : ℚ) * (1 - d.impressions_share / 100)) ∧
    (DiagnosticAnalyzer.analyze t s pf).Sorted scoreDescLE ∧
    (∀ q : ℚ,
      (DiagnosticAnalyzer.analyze t s pf).filter
          (fun d => decide (d.opportunity_score = q)) =
        (s.records.map (mkKeywordDiagnostic t (priceFlaggedQueries pf))).filter
          (fun d => decide (d.opportunity_score = q))) := by
  refine ⟨?_, ?_, ?_⟩
  · intro d hd
    have hmem : d ∈ s.records.map
        (mkKeywordDiagnostic t (priceFlaggedQueries pf)) :=
      (List.mem_insertionSort scoreDescLE).1 hd
    obtain ⟨r, _, rfl⟩ := List.mem_map.1 hmem
    rfl
  · exact List.sorted_insertionSort scoreDescLE _
  · intro q
    refine filter_insertionSort_of_class scoreDescLE _ ?_ _
    intro a b ha hb
    show b.opportunity_score ≤ a.opportunity_score
    rw [of_decide_eq_true ha, of_decide_eq_true hb]

/-- Witness for C3: the score formula at a concrete analyzed diagnostic. -/
theorem C3_opportunity_score_sort_witness :
    (mkKeywordDiagnostic defaultThresholds [] sampleRecord ∈
      DiagnosticAnalyzer.analyze defaultThresholds sampleSnapshot none) ∧
    (mkKeywordDiagnostic defaultThresholds [] sampleRecord).opportunity_score =
      ((mkKeywordDiagnostic defaultThresholds []
          sampleRecord).search_volume : ℚ) *
        (1 - (mkKeywordDiagnostic defaultThresholds []
          sampleRecord).impressions_share / 100) :=
  ⟨List.mem_cons_self _ _,
    (C3_opportunity_score_sort defaultThresholds sampleSnapshot none).1 _
      (List.mem_cons_self _ _)⟩

/-- The percentile computed by `_calculate_percentile` on a list containing
the value agrees, in every branch, with the inclusive-count formula. -/
theorem calculate_percentile_mem (v : Int) (vals : List Int) (hv : v ∈ vals) :
    calculate_percentile v vals =
      100 * (vals.countP (fun w => decide (w ≤ v)) : ℚ) / (vals.length : ℚ) := by
  match vals with
  | [] => simp at hv
  | [w] =>
    have hvw : v = w := by simpa using hv
    subst hvw
    rw [calculate_percentile]
    rw [if_pos le_rfl]
    simp [List.countP_cons]
  | a :: b :: l =>
    rw [calculate_percentile]
    ring

/-- C4: for every record of a non-empty snapshot, the volume percentile used
by `PlacementRecommender.analyze` is 100 times the number of records with
`search_volume` less than or equal to this record's, divided by the number of
records; a one-record snapshot yields percentile 100.0, which the default
top-percentile rule places in TITLE. -/
theorem C4_volume_percentile (s : WeeklySnapshot) (r : SQPRecord)
    (h : r ∈ s.records) :
    calculate_percentile r.search_volume
        (s.records.map (fun x => x.search_volume)) =
      100 * (s.records.countP
          (fun x => decide (x.search_volume ≤ r.search_volume)) : ℚ) /
        (s.records.length : ℚ) ∧
    (s.records = [r] →
      calculate_percentile r.search_volume
          (s.records.map (fun x => x.search_volume)) = 100 ∧
      recommend_placement defaultThresholds r 100 = PlacementTarget.TITLE) := by
  constructor
  · have hv : r.search_volume ∈ s.records.map (fun x => x.search_volume) :=
      List.mem_map_of_mem _ h
    rw [calculate_percentile_mem _ _ hv, List.countP_map, List.length_map]
    rfl
  · intro hs
    constructor
    · rw [hs]
      show calculate_percentile r.search_volume [r.search_volume] = 100
      rw [calculate_percentile, if_pos le_rfl]
    · rw [recommend_placement, if_pos (by norm_num [defaultThresholds])]

/-- Witness for C4 at a concrete singleton snapshot. -/
theorem C4_volume_percentile_witness :
    (sampleRecord ∈ sampleSnapshot.records) ∧
    calculate_percentile sampleRecord.search_volume
        (sampleSnapshot.records.map (fun x => x.search_volume)) =
      100 * (sampleSnapshot.records.countP
          (fun x => decide (x.search_volume ≤ sampleRecord.search_volume)) : ℚ) /
        (sampleSnapshot.records.length : ℚ) :=
  ⟨by decide,
    (C4_volume_percentile sampleSnapshot sampleRecord (by decide)).1⟩

/-- C10: each analyzer emits exactly one result per input record, and the
identifying and metric fields are copied unchanged — the multiset of copied
field tuples of the output equals that of the snapshot's records. -/
theorem C10_per_record_results (t : Thresholds) (s : WeeklySnapshot)
    (pf : Option (List PriceFlag)) :
    (DiagnosticAnalyzer.analyze t s pf).length = s.records.length ∧
    (PlacementRecommender.analyze t s).length = s.records.length ∧
    ((DiagnosticAnalyzer.analyze t s pf).map diagCopiedFields).Perm
      (s.records.map recordDiagFields) ∧
    ((PlacementRecommender.analyze t s).map placeCopiedFields).Perm
      (s.records.map recordPlaceFields) := by
  refine ⟨?_, ?_, ?_, ?_⟩
  · show (List.insertionSort scoreDescLE
      (s.records.map (mkKeywordDiagnostic t (priceFlaggedQueries pf)))).length = _
    rw [List.length_insertionSort, List.length_map]
  · by_cases hemp : s.records.isEmpty = true
    · rw [PlacementRecommender.analyze, if_pos hemp, List.isEmpty_iff.1 hemp]
      rfl
    · rw [PlacementRecommender.analyze, if_neg hemp]
      show ((List.insertionSort finalLE (assignPriorities
        (indexFrom 0 (placementFirstPass t s)))).map Prod.snd).length = _
      rw [List.length_map, List.length_insertionSort, assignPriorities,
        List.length_map, indexFrom_length]
      show (s.records.map _).length = _
      rw [List.length_map]
  · have hperm := (List.perm_insertionSort scoreDescLE
      (s.records.map (mkKeywordDiagnostic t
        (priceFlaggedQueries pf)))).map diagCopiedFields
    refine hperm.trans ?_
    rw [List.map_map]
    exact List.Perm.of_eq (List.map_congr_left (fun r _ => rfl))
  · by_cases hemp : s.records.isEmpty = true
    · rw [PlacementRecommender.analyze, if_pos hemp, List.isEmpty_iff.1 hemp]
      exact List.Perm.refl _
    · rw [PlacementRecommender.analyze, if_neg hemp]
      show (((List.insertionSort finalLE (assignPriorities
        (indexFrom 0 (placementFirstPass t s)))).map Prod.snd).map
          placeCopiedFields).Perm _
      rw [List.map_map]
      have hperm := (List.perm_insertionSort finalLE (assignPriorities
        (indexFrom 0 (placementFirstPass t s)))).map
          (placeCopiedFields ∘ Prod.snd)
      refine hperm.trans ?_
      rw [assignPriorities, List.map_map]
      have h1 : (indexFrom 0 (placementFirstPass t s)).map
          ((placeCopiedFields ∘ Prod.snd) ∘ fun q =>
            (q.1, { q.2 with priority :=
              ((sortedCategory (indexFrom 0 (placementFirstPass t s))
                  q.2.placement).findIdx
                  (fun w => decide (w.1 = q.1)) : Int) + 1 })) =
          (indexFrom 0 (placementFirstPass t s)).map
            (placeCopiedFields ∘ Prod.snd) :=
        List.map_congr_left (fun q _ => rfl)
      rw [h1, ← List.map_map, indexFrom_map_snd]
      rw [placementFirstPass, List.map_map]
      exact List.Perm.of_eq (List.map_congr_left (fun r _ => rfl))

end SQP
